import Mathlib

/-!
Verification of the Game-of-Invasions generation engine (`goi.c`).

A `World` is modelled as a row-major `List Int` of faction ids together with
its dimensions `nRows × nCols`.  All cell-level logic (`getNextState` and its
helpers `isBirthable`, `isSurvivable`, `willFight`, the neighbor tally) is a
direct translation of the C source.  The `MAX_FACTIONS`-sized C array
`neighborCounts` is modelled as a total map from faction id to count; the C
code only ever reads and writes indices in `[0, MAX_FACTIONS)` for valid
worlds, which is proved separately as a safety property.

The thread-pool execution of a generation is modelled by its sequential
denotation: each worker writes `getNextState` into the cells of its disjoint
partition, so a generation as a whole computes `getNextState` at every flat
index exactly once, and the shared death toll counts the cells whose result
reported a fighting death.
-/

namespace Goi

/-- `MAX_FACTIONS` from goi.c: the faction-id space is `[0, 10)`, with `0`
the dead faction. -/
def MAX_FACTIONS : Nat := 10

/-- `DEAD_FACTION` from goi.c. -/
def DEAD_FACTION : Int := 0

/-- Modelled from the spec: `getValueAt` lives in `util.h`/`util.c`, which is
not part of this repository snapshot.  Per the spec, a `WorldBuffer` is a
row-major mapping of cell index to faction id, and positions outside
`[0,nRows) × [0,nCols)` "simply do not exist" (non-wrapping, excluded
boundary): they are reported by a negative sentinel, which the caller's
`faction >= DEAD_FACTION` guard in goi.c filters out. -/
def getValueAt (grid : List Int) (nRows nCols row col : Int) : Int :=
  if row < 0 ∨ nRows ≤ row ∨ col < 0 ∨ nCols ≤ col then -1
  else grid.getD (row * nCols + col).toNat 0

/-- `isBirthable` from goi.c: a dead cell is born for a faction with exactly
3 live neighbors of that faction. -/
def isBirthable (n : Int) : Bool := n == 3

/-- `isSurvivable` from goi.c: a live cell survives with 2 or 3 friendly
neighbors. -/
def isSurvivable (n : Int) : Bool := n == 2 || n == 3

/-- `willFight` from goi.c: a live cell dies by fighting with more than 0
hostile neighbors. -/
def willFight (n : Int) : Bool := decide (n > 0)

/-- The nine `(dy, dx)` offsets scanned by the tally loop in `getNextState`
(outer `dy` from -1 to 1, inner `dx` from -1 to 1), self included. -/
def deltas : List (Int × Int) :=
  [(-1, -1), (-1, 0), (-1, 1), (0, -1), (0, 0), (0, 1), (1, -1), (1, 0), (1, 1)]

/-- Contribution of the scanned position `(r, c)` to `neighborCounts[faction]`:
the C loop increments `neighborCounts[faction]` exactly when the value read at
`(r, c)` is `≥ DEAD_FACTION` and equals `faction`. -/
def tallyContribution (currWorld : List Int) (nRows nCols r c faction : Int) : Int :=
  if 0 ≤ getValueAt currWorld nRows nCols r c ∧
      getValueAt currWorld nRows nCols r c = faction then 1 else 0

/-- The raw tally over the 9-cell neighborhood (self included), before the
self-count adjustment: the value of `neighborCounts[faction]` right after the
double loop in goi.c. -/
def rawNeighborCount (currWorld : List Int) (nRows nCols row col faction : Int) : Int :=
  (deltas.map (fun d =>
    tallyContribution currWorld nRows nCols (row + d.1) (col + d.2) faction)).sum

/-- `neighborCounts` after the `neighborCounts[cellFaction]--` adjustment in
goi.c, as a total map from faction id to count. -/
def neighborCounts (currWorld : List Int) (nRows nCols row col faction : Int) : Int :=
  rawNeighborCount currWorld nRows nCols row col faction -
    (if faction = getValueAt currWorld nRows nCols row col then 1 else 0)

/-- The live faction ids `1 .. MAX_FACTIONS - 1`, in the increasing order both
scan loops of `getNextState` traverse them. -/
def liveFactions : List Int := (List.range' 1 (MAX_FACTIONS - 1)).map Int.ofNat

/-- The dead-cell branch of `getNextState`: scan factions `1 .. MAX_FACTIONS-1`
in increasing order, unconditionally overwriting `newFaction` whenever the
faction's count is birthable; `DEAD_FACTION` if none qualifies. -/
def birthFaction (counts : Int → Int) : Int :=
  liveFactions.foldl (fun acc f => if isBirthable (counts f) then f else acc) DEAD_FACTION

/-- The live-cell branch's hostile tally in `getNextState`: sum of
`neighborCounts[faction]` over factions `1 .. MAX_FACTIONS-1` other than the
cell's own. -/
def hostileCountOf (counts : Int → Int) (cellFaction : Int) : Int :=
  liveFactions.foldl (fun acc f => if f = cellFaction then acc else acc + counts f) 0

/-- The hostile count of the cell at `(row, col)`. -/
def hostileCount (currWorld : List Int) (nRows nCols row col : Int) : Int :=
  hostileCountOf (neighborCounts currWorld nRows nCols row col)
    (getValueAt currWorld nRows nCols row col)

/-- The value the invasion check in `getNextState` reads for the cell:
`invaders != NULL && getValueAt(invaders, ...) != DEAD_FACTION` is equivalent
to this value being nonzero, because an absent overlay reads as
`DEAD_FACTION`. -/
def overlayValue (invaders : Option (List Int)) (nRows nCols row col : Int) : Int :=
  match invaders with
  | some inv => getValueAt inv nRows nCols row col
  | none => DEAD_FACTION

/-- `getNextState` from goi.c: returns the next faction of the cell at
`(row, col)` together with the `diedDueToFighting` flag. -/
def getNextState (currWorld : List Int) (invaders : Option (List Int))
    (nRows nCols row col : Int) : Int × Bool :=
  let cellFaction := getValueAt currWorld nRows nCols row col
  if overlayValue invaders nRows nCols row col ≠ DEAD_FACTION then
    (overlayValue invaders nRows nCols row col, decide (cellFaction ≠ DEAD_FACTION))
  else if cellFaction = DEAD_FACTION then
    (birthFaction (neighborCounts currWorld nRows nCols row col), false)
  else if willFight (hostileCount currWorld nRows nCols row col) then
    (DEAD_FACTION, true)
  else if isSurvivable (neighborCounts currWorld nRows nCols row col cellFaction) then
    (cellFaction, false)
  else
    (DEAD_FACTION, false)

/-- The contribution of one cell to the shared death toll: the worker loop in
`subroutine` increments the toll by exactly 1 when the cell's
`diedDueToFighting` flag is set, and by 0 otherwise. -/
def cellToll (currWorld : List Int) (invaders : Option (List Int))
    (nRows nCols row col : Int) : Nat :=
  if (getNextState currWorld invaders nRows nCols row col).2 then 1 else 0

/-- `getRow` from goi.c. -/
def getRow (nRows nCols : Nat) (index : Nat) : Nat := index / nCols

/-- `getCol` from goi.c. -/
def getCol (nRows nCols : Nat) (index : Nat) : Nat := index % nCols

lemma isSurvivable_iff (n : Int) : isSurvivable n = true ↔ n = 2 ∨ n = 3 := by
  simp [isSurvivable]

lemma isBirthable_iff (n : Int) : isBirthable n = true ↔ n = 3 := by
  simp [isBirthable]

lemma willFight_iff (n : Int) : willFight n = true ↔ 0 < n := by
  simp [willFight]

/-- On a cell the overlay does not apply to, `getNextState` reduces to the
neighbor-rule logic. -/
lemma getNextState_of_no_overlay (currWorld : List Int) (invaders : Option (List Int))
    (nRows nCols row col : Int)
    (hnoinv : overlayValue invaders nRows nCols row col = DEAD_FACTION) :
    getNextState currWorld invaders nRows nCols row col =
      if getValueAt currWorld nRows nCols row col = DEAD_FACTION then
        (birthFaction (neighborCounts currWorld nRows nCols row col), false)
      else if willFight (hostileCount currWorld nRows nCols row col) then
        (DEAD_FACTION, true)
      else if isSurvivable (neighborCounts currWorld nRows nCols row col
          (getValueAt currWorld nRows nCols row col)) then
        (getValueAt currWorld nRows nCols row col, false)
      else
        (DEAD_FACTION, false) := by
  simp [getNextState, hnoinv]

/-- Claim C1: a live cell with no overlay applying and hostile count greater
than 0 dies by fighting: `getNextState` returns faction `0` with
`diedDueToFighting = true`, regardless of the friendly count, and its
contribution to the shared death toll is exactly one. -/
theorem C1_live_with_hostiles_dies_fighting (currWorld : List Int)
    (invaders : Option (List Int)) (nRows nCols row col : Int)
    (hlive : getValueAt currWorld nRows nCols row col ≠ DEAD_FACTION)
    (hnoinv : overlayValue invaders nRows nCols row col = DEAD_FACTION)
    (hhost : 0 < hostileCount currWorld nRows nCols row col) :
    getNextState currWorld invaders nRows nCols row col = (DEAD_FACTION, true) ∧
      cellToll currWorld invaders nRows nCols row col = 1 := by
  have h := getNextState_of_no_overlay currWorld invaders nRows nCols row col hnoinv
  rw [if_neg hlive, if_pos ((willFight_iff _).mpr hhost)] at h
  exact ⟨h, by simp [cellToll, h]⟩

/-- Witness for C1 on the two-cell world `[1, 2]`: the faction-1 cell at
`(0, 0)` has one hostile neighbor and dies by fighting. -/
theorem C1_witness :
    getNextState [1, 2] none 1 2 0 0 = (DEAD_FACTION, true) ∧
      cellToll [1, 2] none 1 2 0 0 = 1 :=
  C1_live_with_hostiles_dies_fighting [1, 2] none 1 2 0 0
    (by decide) (by decide) (by decide)

/-- Claim C2: a live cell with no overlay applying and hostile count 0
survives (keeps its faction, no fighting death) exactly when its friendly
count is 2 or 3; with friendly count 0, 1, or at least 4 it dies with
`diedDueToFighting = false`, and in all these cases its death-toll
contribution is 0. -/
theorem C2_peaceful_survival_rule (currWorld : List Int)
    (invaders : Option (List Int)) (nRows nCols row col : Int)
    (hlive : getValueAt currWorld nRows nCols row col ≠ DEAD_FACTION)
    (hnoinv : overlayValue invaders nRows nCols row col = DEAD_FACTION)
    (hpeace : hostileCount currWorld nRows nCols row col = 0) :
    (getNextState currWorld invaders nRows nCols row col =
        (getValueAt currWorld nRows nCols row col, false) ↔
      neighborCounts currWorld nRows nCols row col
          (getValueAt currWorld nRows nCols row col) = 2 ∨
        neighborCounts currWorld nRows nCols row col
          (getValueAt currWorld nRows nCols row col) = 3) ∧
    ((neighborCounts currWorld nRows nCols row col
          (getValueAt currWorld nRows nCols row col) = 0 ∨
        neighborCounts currWorld nRows nCols row col
          (getValueAt currWorld nRows nCols row col) = 1 ∨
        4 ≤ neighborCounts currWorld nRows nCols row col
          (getValueAt currWorld nRows nCols row col)) →
      getNextState currWorld invaders nRows nCols row col = (DEAD_FACTION, false)) ∧
    cellToll currWorld invaders nRows nCols row col = 0 := by
  have h := getNextState_of_no_overlay currWorld invaders nRows nCols row col hnoinv
  have hnf : willFight (hostileCount currWorld nRows nCols row col) = false := by
    rw [hpeace]; decide
  rw [if_neg hlive, hnf, if_neg Bool.false_ne_true] at h
  by_cases hs : isSurvivable (neighborCounts currWorld nRows nCols row col
      (getValueAt currWorld nRows nCols row col)) = true
  · have hs23 := (isSurvivable_iff _).mp hs
    rw [if_pos hs] at h
    refine ⟨⟨fun _ => hs23, fun _ => h⟩, fun h014 => ?_, by simp [cellToll, h]⟩
    rcases hs23 with h2 | h2 <;> omega
  · have hs23 : ¬ (neighborCounts currWorld nRows nCols row col
        (getValueAt currWorld nRows nCols row col) = 2 ∨
        neighborCounts currWorld nRows nCols row col
          (getValueAt currWorld nRows nCols row col) = 3) := by
      intro hc; exact hs ((isSurvivable_iff _).mpr hc)
    rw [if_neg hs] at h
    refine ⟨⟨fun hc => absurd ?_ hs23, fun hc => absurd hc hs23⟩,
      fun _ => h, by simp [cellToll, h]⟩
    rw [h] at hc
    exact absurd (Prod.ext_iff.mp hc).1.symm hlive

/-- Witness for C2 on a 3-by-3 world whose middle row is faction 1: the
center cell has 2 friendly neighbors, no hostile ones, and survives. -/
theorem C2_witness :
    (getNextState [0, 0, 0, 1, 1, 1, 0, 0, 0] none 3 3 1 1 =
        (getValueAt [0, 0, 0, 1, 1, 1, 0, 0, 0] 3 3 1 1, false) ↔
      neighborCounts [0, 0, 0, 1, 1, 1, 0, 0, 0] 3 3 1 1
          (getValueAt [0, 0, 0, 1, 1, 1, 0, 0, 0] 3 3 1 1) = 2 ∨
        neighborCounts [0, 0, 0, 1, 1, 1, 0, 0, 0] 3 3 1 1
          (getValueAt [0, 0, 0, 1, 1, 1, 0, 0, 0] 3 3 1 1) = 3) ∧
    ((neighborCounts [0, 0, 0, 1, 1, 1, 0, 0, 0] 3 3 1 1
          (getValueAt [0, 0, 0, 1, 1, 1, 0, 0, 0] 3 3 1 1) = 0 ∨
        neighborCounts [0, 0, 0, 1, 1, 1, 0, 0, 0] 3 3 1 1
          (getValueAt [0, 0, 0, 1, 1, 1, 0, 0, 0] 3 3 1 1) = 1 ∨
        4 ≤ neighborCounts [0, 0, 0, 1, 1, 1, 0, 0, 0] 3 3 1 1
          (getValueAt [0, 0, 0, 1, 1, 1, 0, 0, 0] 3 3 1 1)) →
      getNextState [0, 0, 0, 1, 1, 1, 0, 0, 0] none 3 3 1 1 = (DEAD_FACTION, false)) ∧
    cellToll [0, 0, 0, 1, 1, 1, 0, 0, 0] none 3 3 1 1 = 0 :=
  C2_peaceful_survival_rule [0, 0, 0, 1, 1, 1, 0, 0, 0] none 3 3 1 1
    (by decide) (by decide) (by decide)

lemma liveFactions_eq : liveFactions = [1, 2, 3, 4, 5, 6, 7, 8, 9] := by decide

/-- If no live faction has a birthable count, the dead-cell scan leaves
`newFaction` at `DEAD_FACTION`. -/
lemma birthFaction_eq_dead (counts : Int → Int)
    (h : ∀ f : Int, 1 ≤ f → f < 10 → counts f ≠ 3) :
    birthFaction counts = DEAD_FACTION := by
  have h1 := h 1 (by norm_num) (by norm_num)
  have h2 := h 2 (by norm_num) (by norm_num)
  have h3 := h 3 (by norm_num) (by norm_num)
  have h4 := h 4 (by norm_num) (by norm_num)
  have h5 := h 5 (by norm_num) (by norm_num)
  have h6 := h 6 (by norm_num) (by norm_num)
  have h7 := h 7 (by norm_num) (by norm_num)
  have h8 := h 8 (by norm_num) (by norm_num)
  have h9 := h 9 (by norm_num) (by norm_num)
  simp [birthFaction, liveFactions_eq, isBirthable, h1, h2, h3, h4, h5, h6, h7, h8, h9]

/-- The unconditional overwrite in the ascending scan makes the highest
birthable faction win: any birthable faction id is at most the scan result,
and the result itself is birthable. -/
lemma birthFaction_ge_of_birthable (counts : Int → Int) (f : Int)
    (hf1 : 1 ≤ f) (hf2 : f < 10) (hf3 : counts f = 3) :
    f ≤ birthFaction counts ∧ counts (birthFaction counts) = 3 := by
  have hf : f = 1 ∨ f = 2 ∨ f = 3 ∨ f = 4 ∨ f = 5 ∨ f = 6 ∨ f = 7 ∨ f = 8 ∨ f = 9 := by
    omega
  simp only [birthFaction, liveFactions_eq, List.foldl_cons, List.foldl_nil, isBirthable,
    beq_iff_eq, DEAD_FACTION]
  split_ifs with b1 b2 b3 b4 b5 b6 b7 b8 b9 <;>
    rcases hf with rfl | rfl | rfl | rfl | rfl | rfl | rfl | rfl | rfl <;>
      simp_all

/-- Claim C3: for a dead cell with no overlay applying, `getNextState` never
reports a fighting death, returns `0` when no live faction has exactly 3
neighbors, and otherwise returns the highest faction id whose neighbor count
is exactly 3. -/
theorem C3_dead_cell_birth_rule (currWorld : List Int)
    (invaders : Option (List Int)) (nRows nCols row col : Int)
    (hdead : getValueAt currWorld nRows nCols row col = DEAD_FACTION)
    (hnoinv : overlayValue invaders nRows nCols row col = DEAD_FACTION) :
    (getNextState currWorld invaders nRows nCols row col).2 = false ∧
    ((∀ f : Int, 1 ≤ f → f < 10 → neighborCounts currWorld nRows nCols row col f ≠ 3) →
      (getNextState currWorld invaders nRows nCols row col).1 = DEAD_FACTION) ∧
    (∀ f : Int, 1 ≤ f → f < 10 → neighborCounts currWorld nRows nCols row col f = 3 →
      f ≤ (getNextState currWorld invaders nRows nCols row col).1 ∧
        neighborCounts currWorld nRows nCols row col
          (getNextState currWorld invaders nRows nCols row col).1 = 3) := by
  have h := getNextState_of_no_overlay currWorld invaders nRows nCols row col hnoinv
  rw [if_pos hdead] at h
  rw [h]
  refine ⟨rfl, fun hnone => birthFaction_eq_dead _ hnone, fun f hf1 hf2 hf3 =>
    birthFaction_ge_of_birthable _ f hf1 hf2 hf3⟩

/-- Witness for C3 on a 3-by-3 world whose top row is faction 2 and bottom
row faction 3: the dead center cell sees 3 neighbors of each, and the
higher id wins. -/
theorem C3_witness :
    (getNextState [2, 2, 2, 0, 0, 0, 3, 3, 3] none 3 3 1 1).2 = false ∧
    ((∀ f : Int, 1 ≤ f → f < 10 →
        neighborCounts [2, 2, 2, 0, 0, 0, 3, 3, 3] 3 3 1 1 f ≠ 3) →
      (getNextState [2, 2, 2, 0, 0, 0, 3, 3, 3] none 3 3 1 1).1 = DEAD_FACTION) ∧
    (∀ f : Int, 1 ≤ f → f < 10 →
      neighborCounts [2, 2, 2, 0, 0, 0, 3, 3, 3] 3 3 1 1 f = 3 →
      f ≤ (getNextState [2, 2, 2, 0, 0, 0, 3, 3, 3] none 3 3 1 1).1 ∧
        neighborCounts [2, 2, 2, 0, 0, 0, 3, 3, 3] 3 3 1 1
          (getNextState [2, 2, 2, 0, 0, 0, 3, 3, 3] none 3 3 1 1).1 = 3) :=
  C3_dead_cell_birth_rule [2, 2, 2, 0, 0, 0, 3, 3, 3] none 3 3 1 1
    (by decide) (by decide)

/-- Claim C4: a nonzero overlay value at the cell short-circuits all neighbor
logic: the result faction is the overlay value, `diedDueToFighting` holds
exactly when the current cell was live, so an invasion of a dead cell
contributes 0 to the death toll and an invasion of a live cell contributes
exactly 1. -/
theorem C4_overlay_short_circuits (currWorld inv : List Int)
    (invaders : Option (List Int)) (nRows nCols row col : Int)
    (hinv : invaders = some inv)
    (hnz : getValueAt inv nRows nCols row col ≠ DEAD_FACTION) :
    getNextState currWorld invaders nRows nCols row col =
      (getValueAt inv nRows nCols row col,
        decide (getValueAt currWorld nRows nCols row col ≠ DEAD_FACTION)) ∧
    (getValueAt currWorld nRows nCols row col = DEAD_FACTION →
      cellToll currWorld invaders nRows nCols row col = 0) ∧
    (getValueAt currWorld nRows nCols row col ≠ DEAD_FACTION →
      cellToll currWorld invaders nRows nCols row col = 1) := by
  subst hinv
  have hov : overlayValue (some inv) nRows nCols row col =
      getValueAt inv nRows nCols row col := rfl
  have h : getNextState currWorld (some inv) nRows nCols row col =
      (getValueAt inv nRows nCols row col,
        decide (getValueAt currWorld nRows nCols row col ≠ DEAD_FACTION)) := by
    simp only [getNextState, hov, ne_eq, hnz, not_false_eq_true, if_true]
  refine ⟨h, fun hdead => ?_, fun hlive => ?_⟩
  · simp [cellToll, h, hdead]
  · simp [cellToll, h, hlive]

/-- Witness for C4: invading the dead cell of the world `[0, 7]` with
faction 4 lands without a fighting death. -/
theorem C4_witness :
    getNextState [0, 7] (some [4, 0]) 1 2 0 0 =
      (getValueAt [4, 0] 1 2 0 0,
        decide (getValueAt [0, 7] 1 2 0 0 ≠ DEAD_FACTION)) ∧
    (getValueAt [0, 7] 1 2 0 0 = DEAD_FACTION →
      cellToll [0, 7] (some [4, 0]) 1 2 0 0 = 0) ∧
    (getValueAt [0, 7] 1 2 0 0 ≠ DEAD_FACTION →
      cellToll [0, 7] (some [4, 0]) 1 2 0 0 = 1) :=
  C4_overlay_short_circuits [0, 7] [4, 0] (some [4, 0]) 1 2 0 0 rfl (by decide)

/-- The eight `(dy, dx)` offsets of the true neighbors, the cell itself
excluded; spec-side definition used to state the self-exclusion property. -/
def neighborDeltas : List (Int × Int) :=
  [(-1, -1), (-1, 0), (-1, 1), (0, -1), (0, 1), (1, -1), (1, 0), (1, 1)]

/-- Spec-side definition: the tally of a faction over the 8-neighborhood,
excluding the cell itself. -/
def eightNeighborCount (currWorld : List Int) (nRows nCols row col faction : Int) : Int :=
  (neighborDeltas.map (fun d =>
    tallyContribution currWorld nRows nCols (row + d.1) (col + d.2) faction)).sum

/-- `getValueAt` at any position yields the boundary sentinel, a stored cell
value, or the padding default 0. -/
lemma getValueAt_cases (grid : List Int) (nRows nCols row col : Int) :
    getValueAt grid nRows nCols row col = -1 ∨
    getValueAt grid nRows nCols row col ∈ grid ∨
    getValueAt grid nRows nCols row col = 0 := by
  rw [getValueAt]
  split
  · exact Or.inl rfl
  · rcases lt_or_le ((row * nCols + col).toNat) grid.length with h | h
    · refine Or.inr (Or.inl ?_)
      rw [List.getD_eq_getElem _ _ h]
      exact List.getElem_mem h
    · exact Or.inr (Or.inr (List.getD_eq_default _ _ h))

/-- `getValueAt` at an in-bounds position yields a stored cell value or the
padding default 0; never the boundary sentinel. -/
lemma getValueAt_mem_or_zero (grid : List Int) (nRows nCols row col : Int)
    (hrow : 0 ≤ row ∧ row < nRows) (hcol : 0 ≤ col ∧ col < nCols) :
    getValueAt grid nRows nCols row col ∈ grid ∨
    getValueAt grid nRows nCols row col = 0 := by
  rw [getValueAt, if_neg (by omega)]
  rcases lt_or_le ((row * nCols + col).toNat) grid.length with h | h
  · refine Or.inl ?_
    rw [List.getD_eq_getElem _ _ h]
    exact List.getElem_mem h
  · exact Or.inr (List.getD_eq_default _ _ h)

/-- Claim C5: the tally in `getNextState` uses the non-wrapping,
excluded-boundary policy: an out-of-bounds position contributes to no
faction's count, and for an in-bounds cell the final count of every faction
equals the tally over the eight true neighbors, the cell itself excluded
from its own faction's count. -/
theorem C5_boundary_policy_and_self_exclusion (currWorld : List Int)
    (nRows nCols row col : Int)
    (hrow : 0 ≤ row ∧ row < nRows) (hcol : 0 ≤ col ∧ col < nCols) :
    (∀ r c : Int, (r < 0 ∨ nRows ≤ r ∨ c < 0 ∨ nCols ≤ c) →
      ∀ f : Int, 0 ≤ f → tallyContribution currWorld nRows nCols r c f = 0) ∧
    (∀ f : Int, 0 ≤ f → neighborCounts currWorld nRows nCols row col f =
      eightNeighborCount currWorld nRows nCols row col f) := by
  constructor
  · intro r c hoob f hf
    have hv : getValueAt currWorld nRows nCols r c = -1 := by
      rw [getValueAt, if_pos hoob]
    rw [tallyContribution, hv, if_neg]
    rintro ⟨h1, h2⟩
    omega
  · intro f hf
    have hself : tallyContribution currWorld nRows nCols row col f =
        if f = getValueAt currWorld nRows nCols row col then 1 else 0 := by
      rcases eq_or_ne f (getValueAt currWorld nRows nCols row col) with hfc | hfc
      · rw [if_pos hfc, tallyContribution, if_pos ⟨by omega, hfc.symm⟩]
      · rw [if_neg hfc, tallyContribution, if_neg]
        rintro ⟨h1, h2⟩
        exact hfc h2.symm
    simp only [neighborCounts, rawNeighborCount, eightNeighborCount, deltas, neighborDeltas,
      List.map_cons, List.map_nil, List.sum_cons, List.sum_nil, add_zero]
    rw [hself]
    rcases eq_or_ne f (getValueAt currWorld nRows nCols row col) with hfc | hfc
    · simp only [hfc, if_pos rfl]
      ring
    · simp only [if_neg hfc]
      ring

/-- Witness for C5 on the 3-by-3 blinker world at its corner cell `(0, 0)`. -/
theorem C5_witness :
    (∀ r c : Int, (r < 0 ∨ 3 ≤ r ∨ c < 0 ∨ 3 ≤ c) →
      ∀ f : Int, 0 ≤ f →
        tallyContribution [0, 0, 0, 1, 1, 1, 0, 0, 0] 3 3 r c f = 0) ∧
    (∀ f : Int, 0 ≤ f →
      neighborCounts [0, 0, 0, 1, 1, 1, 0, 0, 0] 3 3 0 0 f =
        eightNeighborCount [0, 0, 0, 1, 1, 1, 0, 0, 0] 3 3 0 0 f) :=
  C5_boundary_policy_and_self_exclusion [0, 0, 0, 1, 1, 1, 0, 0, 0] 3 3 0 0
    (by decide) (by decide)

/-- Claim C9: for a world whose cells are valid faction ids in
`[0, MAX_FACTIONS)`, every `neighborCounts` index `getNextState` touches is
in bounds: each of the nine scanned values that passes the
`faction >= DEAD_FACTION` guard (the increment indices) lies below
`MAX_FACTIONS`, and the cell's own faction (the self-adjustment and
friendly-count index) lies in `[0, MAX_FACTIONS)`; the embedded
`getNextState` is a total function, so it returns a result for every such
cell. -/
theorem C9_neighbor_tally_index_safety (currWorld : List Int)
    (nRows nCols row col : Int)
    (hvalid : ∀ x ∈ currWorld, 0 ≤ x ∧ x < (MAX_FACTIONS : Int))
    (hrow : 0 ≤ row ∧ row < nRows) (hcol : 0 ≤ col ∧ col < nCols) :
    (∀ d ∈ deltas,
      0 ≤ getValueAt currWorld nRows nCols (row + d.1) (col + d.2) →
        getValueAt currWorld nRows nCols (row + d.1) (col + d.2) <
          (MAX_FACTIONS : Int)) ∧
    (0 ≤ getValueAt currWorld nRows nCols row col ∧
      getValueAt currWorld nRows nCols row col < (MAX_FACTIONS : Int)) := by
  constructor
  · intro d _ hge
    rcases getValueAt_cases currWorld nRows nCols (row + d.1) (col + d.2) with h | h | h
    · omega
    · exact (hvalid _ h).2
    · rw [h]; norm_num [MAX_FACTIONS]
  · rcases getValueAt_mem_or_zero currWorld nRows nCols row col hrow hcol with h | h
    · exact hvalid _ h
    · rw [h]; norm_num [MAX_FACTIONS]

/-- Witness for C9 on the two-cell world `[1, 2]` at cell `(0, 1)`. -/
theorem C9_witness :
    (∀ d ∈ deltas,
      0 ≤ getValueAt [1, 2] 1 2 (0 + d.1) (1 + d.2) →
        getValueAt [1, 2] 1 2 (0 + d.1) (1 + d.2) < (MAX_FACTIONS : Int)) ∧
    (0 ≤ getValueAt [1, 2] 1 2 0 1 ∧
      getValueAt [1, 2] 1 2 0 1 < (MAX_FACTIONS : Int)) :=
  C9_neighbor_tally_index_safety [1, 2] 1 2 0 1 (by decide) (by decide) (by decide)

/-- Claim C10: when the overlay value at a live cell equals the cell's own
faction, `getNextState` still reports a fighting death: the result is the
same faction with `diedDueToFighting = true`, so the death toll is
incremented although the cell neither dies nor changes owner. -/
theorem C10_self_invasion_counts_death (currWorld inv : List Int)
    (invaders : Option (List Int)) (nRows nCols row col : Int)
    (hinv : invaders = some inv)
    (hsame : getValueAt inv nRows nCols row col =
      getValueAt currWorld nRows nCols row col)
    (hlive : getValueAt currWorld nRows nCols row col ≠ DEAD_FACTION) :
    getNextState currWorld invaders nRows nCols row col =
      (getValueAt currWorld nRows nCols row col, true) ∧
    cellToll currWorld invaders nRows nCols row col = 1 := by
  subst hinv
  have hnz : getValueAt inv nRows nCols row col ≠ DEAD_FACTION := by
    rw [hsame]; exact hlive
  have h : getNextState currWorld (some inv) nRows nCols row col =
      (getValueAt currWorld nRows nCols row col, true) := by
    simp only [getNextState, overlayValue, ne_eq, hnz, not_false_eq_true, if_true,
      hsame, hlive, decide_not]
    simp [hlive]
  exact ⟨h, by simp [cellToll, h]⟩

/-- Witness for C10: faction 1 invades its own live cell in the world
`[1, 2]`; the cell keeps faction 1 yet a fighting death is recorded. -/
theorem C10_witness :
    getNextState [1, 2] (some [1, 0]) 1 2 0 0 =
      (getValueAt [1, 2] 1 2 0 0, true) ∧
    cellToll [1, 2] (some [1, 0]) 1 2 0 0 = 1 :=
  C10_self_invasion_counts_death [1, 2] [1, 0] (some [1, 0]) 1 2 0 0 rfl
    (by decide) (by decide)

/-! ### Worker partitioning (the setup loops of `goi`) -/

/-- `totalGrids` from goi.c: the number of flattened cell indices. -/
def totalGrids (nRows nCols : Nat) : Nat := nRows * nCols

/-- `threadSize` from goi.c: integer division of the cell count by the
thread count. -/
def threadSize (nRows nCols nThreads : Nat) : Nat :=
  totalGrids nRows nCols / nThreads

/-- `startIdx` of worker `i`: the setup loop starts `index` at 0 and advances
it by `threadSize` once per worker, so every worker (the last included)
starts at `i * threadSize`. -/
def partStart (nRows nCols nThreads i : Nat) : Nat :=
  i * threadSize nRows nCols nThreads

/-- `endIdx` of worker `i`: `fmin(index + threadSize, totalGrids)` for each
of the first `nThreads - 1` workers, and `totalGrids` for the last. -/
def partEnd (nRows nCols nThreads i : Nat) : Nat :=
  if i = nThreads - 1 then totalGrids nRows nCols
  else
    min (partStart nRows nCols nThreads i + threadSize nRows nCols nThreads)
      (totalGrids nRows nCols)

lemma mul_threadSize_le (nRows nCols nThreads : Nat) :
    nThreads * threadSize nRows nCols nThreads ≤ totalGrids nRows nCols := by
  rw [threadSize, Nat.mul_comm]
  exact Nat.div_mul_le_self _ _

lemma partEnd_of_lt (nRows nCols nThreads i : Nat) (h : i < nThreads - 1) :
    partEnd nRows nCols nThreads i = (i + 1) * threadSize nRows nCols nThreads := by
  have h1 : (i + 1) * threadSize nRows nCols nThreads ≤ totalGrids nRows nCols :=
    le_trans (Nat.mul_le_mul_right _ (by omega)) (mul_threadSize_le nRows nCols nThreads)
  rw [partEnd, if_neg (by omega), partStart,
    show i * threadSize nRows nCols nThreads + threadSize nRows nCols nThreads =
      (i + 1) * threadSize nRows nCols nThreads from (Nat.succ_mul i _).symm,
    min_eq_left h1]

lemma partEnd_le_partStart (nRows nCols nThreads i j : Nat)
    (hij : i < j) (hj : j < nThreads) :
    partEnd nRows nCols nThreads i ≤ partStart nRows nCols nThreads j := by
  rw [partEnd_of_lt nRows nCols nThreads i (by omega), partStart]
  exact Nat.mul_le_mul_right _ (by omega)

/-- Claim C6 (amended): the worker partitions are contiguous, pairwise
disjoint, and cover `[0, totalGrids)` with every index in exactly one
partition; each of the first `nThreads - 1` partitions has size `threadSize`
and the last absorbs the entire remainder, exceeding the others by exactly
`totalGrids % nThreads`, which is less than `nThreads` (but can exceed one
row of cells). -/
theorem C6_partition_invariant (nRows nCols nThreads : Nat) (hT : 1 ≤ nThreads) :
    partStart nRows nCols nThreads 0 = 0 ∧
    partEnd nRows nCols nThreads (nThreads - 1) = totalGrids nRows nCols ∧
    (∀ i, i + 1 < nThreads →
      partEnd nRows nCols nThreads i = partStart nRows nCols nThreads (i + 1)) ∧
    (∀ i j, i < j → j < nThreads →
      partEnd nRows nCols nThreads i ≤ partStart nRows nCols nThreads j) ∧
    (∀ idx, idx < totalGrids nRows nCols →
      ∃! i, i < nThreads ∧ partStart nRows nCols nThreads i ≤ idx ∧
        idx < partEnd nRows nCols nThreads i) ∧
    (∀ i, i + 1 < nThreads →
      partEnd nRows nCols nThreads i - partStart nRows nCols nThreads i =
        threadSize nRows nCols nThreads) ∧
    (partEnd nRows nCols nThreads (nThreads - 1) -
        partStart nRows nCols nThreads (nThreads - 1) =
      threadSize nRows nCols nThreads + totalGrids nRows nCols % nThreads) ∧
    totalGrids nRows nCols % nThreads < nThreads := by
  have hT0 : 0 < nThreads := hT
  have hmul := mul_threadSize_le nRows nCols nThreads
  have hdm : nThreads * threadSize nRows nCols nThreads +
      totalGrids nRows nCols % nThreads = totalGrids nRows nCols := by
    rw [threadSize]
    exact Nat.div_add_mod _ _
  refine ⟨Nat.zero_mul _, by rw [partEnd, if_pos rfl], ?_, ?_, ?_, ?_, ?_,
    Nat.mod_lt _ hT0⟩
  · intro i hi
    rw [partEnd_of_lt nRows nCols nThreads i (by omega), partStart]
  · exact fun i j hij hj => partEnd_le_partStart nRows nCols nThreads i j hij hj
  · intro idx hidx
    have huniq : ∀ i j, (i < nThreads ∧ partStart nRows nCols nThreads i ≤ idx ∧
        idx < partEnd nRows nCols nThreads i) →
        (j < nThreads ∧ partStart nRows nCols nThreads j ≤ idx ∧
          idx < partEnd nRows nCols nThreads j) → i = j := by
      intro i j hi hj
      rcases Nat.lt_trichotomy i j with hlt | heq | hgt
      · have := partEnd_le_partStart nRows nCols nThreads i j hlt hj.1
        omega
      · exact heq
      · have := partEnd_le_partStart nRows nCols nThreads j i hgt hi.1
        omega
    by_cases hcase :
        idx < (nThreads - 1) * threadSize nRows nCols nThreads
    · have hts0 : 0 < threadSize nRows nCols nThreads := by
        rcases Nat.eq_zero_or_pos (threadSize nRows nCols nThreads) with h0 | h0
        · rw [h0, Nat.mul_zero] at hcase
          omega
        · exact h0
      have hdlt : idx / threadSize nRows nCols nThreads < nThreads - 1 :=
        (Nat.div_lt_iff_lt_mul hts0).mpr hcase
      have hstart : idx / threadSize nRows nCols nThreads *
          threadSize nRows nCols nThreads ≤ idx := Nat.div_mul_le_self _ _
      have hend : idx < (idx / threadSize nRows nCols nThreads + 1) *
          threadSize nRows nCols nThreads := by
        have h1 := Nat.div_add_mod idx (threadSize nRows nCols nThreads)
        have h2 := Nat.mod_lt idx hts0
        have h3 : (idx / threadSize nRows nCols nThreads + 1) *
            threadSize nRows nCols nThreads =
            threadSize nRows nCols nThreads *
              (idx / threadSize nRows nCols nThreads) +
              threadSize nRows nCols nThreads := by ring
        omega
      refine ⟨idx / threadSize nRows nCols nThreads, ⟨by omega, ?_, ?_⟩,
        fun j hj => huniq j _ hj ⟨by omega, ?_, ?_⟩⟩
      · rw [partStart]
        exact hstart
      · rw [partEnd_of_lt nRows nCols nThreads _ hdlt]
        exact hend
      · rw [partStart]
        exact hstart
      · rw [partEnd_of_lt nRows nCols nThreads _ hdlt]
        exact hend
    · refine ⟨nThreads - 1, ⟨by omega, ?_, ?_⟩,
        fun j hj => huniq j _ hj ⟨by omega, ?_, ?_⟩⟩
      · rw [partStart]
        exact Nat.le_of_not_lt hcase
      · rw [partEnd, if_pos rfl]
        exact hidx
      · rw [partStart]
        exact Nat.le_of_not_lt hcase
      · rw [partEnd, if_pos rfl]
        exact hidx
  · intro i hi
    rw [partEnd_of_lt nRows nCols nThreads i (by omega), partStart, Nat.succ_mul,
      Nat.add_sub_cancel_left]
  · rw [partEnd, if_pos rfl, partStart]
    have hsub : (nThreads - 1) * threadSize nRows nCols nThreads =
        nThreads * threadSize nRows nCols nThreads -
          threadSize nRows nCols nThreads := by
      rw [Nat.sub_mul, Nat.one_mul]
    have hle : threadSize nRows nCols nThreads ≤
        nThreads * threadSize nRows nCols nThreads :=
      Nat.le_mul_of_pos_left _ hT0
    omega

/-- Counterexample to Claim C6 as stated: on a 5-by-1 grid with 3 threads the
last partition `[2, 5)` has size 3 while the others have size 1, so it
exceeds them by 2 cells, more than one row (`nCols = 1`) of cells. -/
theorem C6_counterexample :
    threadSize 5 1 3 = 1 ∧ partStart 5 1 3 2 = 2 ∧ partEnd 5 1 3 2 = 5 ∧
      ¬(partEnd 5 1 3 2 - partStart 5 1 3 2 ≤ threadSize 5 1 3 + 1) := by
  refine ⟨rfl, rfl, rfl, by decide⟩

/-- Witness for C6: the partition invariant instantiated on the 5-by-1 grid
with 3 threads. -/
theorem C6_witness :
    partStart 5 1 3 0 = 0 ∧
    partEnd 5 1 3 (3 - 1) = totalGrids 5 1 ∧
    (∀ i, i + 1 < 3 → partEnd 5 1 3 i = partStart 5 1 3 (i + 1)) ∧
    (∀ i j, i < j → j < 3 → partEnd 5 1 3 i ≤ partStart 5 1 3 j) ∧
    (∀ idx, idx < totalGrids 5 1 →
      ∃! i, i < 3 ∧ partStart 5 1 3 i ≤ idx ∧ idx < partEnd 5 1 3 i) ∧
    (∀ i, i + 1 < 3 → partEnd 5 1 3 i - partStart 5 1 3 i = threadSize 5 1 3) ∧
    (partEnd 5 1 3 (3 - 1) - partStart 5 1 3 (3 - 1) =
      threadSize 5 1 3 + totalGrids 5 1 % 3) ∧
    totalGrids 5 1 % 3 < 3 :=
  C6_partition_invariant 5 1 3 (by decide)

/-! ### One generation and the simulation loop of `goi`

The worker partitions tile `[0, nRows*nCols)` exactly (see the partition
invariant above), each worker writes `getNextState` of each of its cells
into the fresh next buffer, and each set `diedDueToFighting` flag adds one
to the shared death toll under the mutex, so a generation's combined effect
is a map of `getNextState` over all flat indices; the loop in `goi` then
frees the old buffer, adopts the next one, and repeats. -/

/-- The next buffer produced by one generation: cell `i` of the next world is
`getNextState` of the current world at `(getRow i, getCol i)`. -/
def stepWorld (world : List Int) (inv : Option (List Int)) (nRows nCols : Nat) : List Int :=
  (List.range (nRows * nCols)).map (fun i =>
    (getNextState world inv (nRows : Int) (nCols : Int)
      (getRow nRows nCols i : Int) (getCol nRows nCols i : Int)).1)

/-- The death-toll increment of one generation: one per cell whose
`diedDueToFighting` flag was set. -/
def stepToll (world : List Int) (inv : Option (List Int)) (nRows nCols : Nat) : Nat :=
  ((List.range (nRows * nCols)).map (fun i =>
    cellToll world inv (nRows : Int) (nCols : Int)
      (getRow nRows nCols i : Int) (getCol nRows nCols i : Int))).sum

/-- The generation loop of `goi` over the listed generation numbers: at each
generation, if the head of the pending invasion schedule matches the current
generation number, its overlay applies for exactly that generation and the
schedule advances; the next buffer replaces the world and the toll
accumulates. -/
def runGenerations (nRows nCols : Nat) :
    List Nat → List (Nat × List Int) → List Int → Nat → List Int × Nat
  | [], _, world, toll => (world, toll)
  | g :: gs, (t, plan) :: rest, world, toll =>
    if g = t then
      runGenerations nRows nCols gs rest (stepWorld world (some plan) nRows nCols)
        (toll + stepToll world (some plan) nRows nCols)
    else
      runGenerations nRows nCols gs ((t, plan) :: rest)
        (stepWorld world none nRows nCols) (toll + stepToll world none nRows nCols)
  | g :: gs, [], world, toll =>
    runGenerations nRows nCols gs [] (stepWorld world none nRows nCols)
      (toll + stepToll world none nRows nCols)

/-- `goi` from goi.c, as its sequential denotation: run generations
`1 .. nGenerations` from a copy of the start world with the given invasion
schedule and return the final world and the accumulated death toll.
`nThreads` does not affect the result. -/
def goi (nThreads nGenerations : Nat) (startWorld : List Int) (nRows nCols : Nat)
    (invasions : List (Nat × List Int)) : List Int × Nat :=
  runGenerations nRows nCols (List.range' 1 nGenerations) invasions startWorld 0

/-! ### The all-dead world is a fixed point -/

lemma getValueAt_replicate_zero (n : Nat) (nRows nCols row col : Int) :
    getValueAt (List.replicate n 0) nRows nCols row col = -1 ∨
    getValueAt (List.replicate n 0) nRows nCols row col = 0 := by
  rcases getValueAt_cases (List.replicate n 0) nRows nCols row col with h | h | h
  · exact Or.inl h
  · exact Or.inr (List.eq_of_mem_replicate h)
  · exact Or.inr h

lemma tallyContribution_replicate_zero (n : Nat) (nRows nCols r c f : Int)
    (hf : f ≠ 0) :
    tallyContribution (List.replicate n 0) nRows nCols r c f = 0 := by
  rw [tallyContribution, if_neg]
  rintro ⟨h1, h2⟩
  rcases getValueAt_replicate_zero n nRows nCols r c with h | h <;> omega

lemma rawNeighborCount_replicate_zero (n : Nat) (nRows nCols row col f : Int)
    (hf : f ≠ 0) :
    rawNeighborCount (List.replicate n 0) nRows nCols row col f = 0 := by
  simp [rawNeighborCount, deltas, tallyContribution_replicate_zero n _ _ _ _ _ hf]

lemma neighborCounts_replicate_zero (n : Nat) (nRows nCols row col f : Int)
    (hf : 1 ≤ f) :
    neighborCounts (List.replicate n 0) nRows nCols row col f = 0 := by
  have hcf : f ≠ getValueAt (List.replicate n 0) nRows nCols row col := by
    rcases getValueAt_replicate_zero n nRows nCols row col with h | h <;> omega
  rw [neighborCounts, if_neg hcf,
    rawNeighborCount_replicate_zero n nRows nCols row col f (by omega)]
  norm_num

lemma hostileCountOf_all_zero (counts : Int → Int) (cf : Int)
    (h : ∀ f : Int, 1 ≤ f → f < 10 → counts f = 0) :
    hostileCountOf counts cf = 0 := by
  have h1 := h 1 (by norm_num) (by norm_num)
  have h2 := h 2 (by norm_num) (by norm_num)
  have h3 := h 3 (by norm_num) (by norm_num)
  have h4 := h 4 (by norm_num) (by norm_num)
  have h5 := h 5 (by norm_num) (by norm_num)
  have h6 := h 6 (by norm_num) (by norm_num)
  have h7 := h 7 (by norm_num) (by norm_num)
  have h8 := h 8 (by norm_num) (by norm_num)
  have h9 := h 9 (by norm_num) (by norm_num)
  simp [hostileCountOf, liveFactions_eq, h1, h2, h3, h4, h5, h6, h7, h8, h9]

/-- In an all-dead world, every cell stays dead with no fighting death. -/
lemma getNextState_replicate_zero (n : Nat) (nRows nCols row col : Int) :
    getNextState (List.replicate n 0) none nRows nCols row col =
      (DEAD_FACTION, false) := by
  have hcounts : ∀ f : Int, 1 ≤ f → f < 10 →
      neighborCounts (List.replicate n 0) nRows nCols row col f = 0 :=
    fun f h1 _ => neighborCounts_replicate_zero n nRows nCols row col f h1
  have h := getNextState_of_no_overlay (List.replicate n 0) none nRows nCols row col rfl
  rcases getValueAt_replicate_zero n nRows nCols row col with hv | hv
  · rw [if_neg (by rw [hv]; decide)] at h
    have hh : hostileCount (List.replicate n 0) nRows nCols row col = 0 :=
      hostileCountOf_all_zero _ _ hcounts
    rw [hh, show willFight 0 = false from rfl, if_neg Bool.false_ne_true] at h
    have hcm1 : neighborCounts (List.replicate n 0) nRows nCols row col
        (getValueAt (List.replicate n 0) nRows nCols row col) = -1 := by
      rw [neighborCounts, if_pos rfl, hv,
        rawNeighborCount_replicate_zero n nRows nCols row col (-1) (by omega)]
      norm_num
    rw [hcm1, show isSurvivable (-1) = false from rfl,
      if_neg Bool.false_ne_true] at h
    exact h
  · rw [if_pos (by rw [hv]; rfl)] at h
    rw [h, birthFaction_eq_dead _ (fun f h1 h2 hc3 => by
      rw [hcounts f h1 h2] at hc3
      exact absurd hc3 (by norm_num))]

lemma stepWorld_replicate_zero (nRows nCols : Nat) :
    stepWorld (List.replicate (nRows * nCols) 0) none nRows nCols =
      List.replicate (nRows * nCols) 0 := by
  rw [List.eq_replicate_iff]
  constructor
  · rw [stepWorld, List.length_map, List.length_range]
  · intro b hb
    rw [stepWorld] at hb
    rcases List.mem_map.mp hb with ⟨i, _, hval⟩
    rw [getNextState_replicate_zero] at hval
    exact hval.symm

lemma stepToll_replicate_zero (nRows nCols : Nat) :
    stepToll (List.replicate (nRows * nCols) 0) none nRows nCols = 0 := by
  rw [stepToll]
  apply List.sum_eq_zero
  intro x hx
  rcases List.mem_map.mp hx with ⟨i, _, hval⟩
  rw [cellToll, getNextState_replicate_zero] at hval
  simpa using hval.symm

lemma runGenerations_replicate_zero (nRows nCols : Nat) (gens : List Nat) (toll : Nat) :
    runGenerations nRows nCols gens [] (List.replicate (nRows * nCols) 0) toll =
      (List.replicate (nRows * nCols) 0, toll) := by
  induction gens generalizing toll with
  | nil => rfl
  | cons g gs ih =>
    rw [runGenerations, stepWorld_replicate_zero, stepToll_replicate_zero, ih]
    simp

/-- Claim C7: with no live cells and an empty invasion schedule, the world is
a fixed point of the generation step: for every number of generations, `goi`
returns the initial all-dead world cell-for-cell and a death toll of 0. -/
theorem C7_all_dead_world_fixed_point (nThreads nGenerations nRows nCols : Nat) :
    goi nThreads nGenerations (List.replicate (nRows * nCols) 0) nRows nCols [] =
      (List.replicate (nRows * nCols) 0, 0) := by
  rw [goi, runGenerations_replicate_zero]

/-! ### Buffer lifecycle of `goi` under allocation failure

This models exactly the grid buffers `goi` allocates and frees: the world
copy, a per-generation overlay copy, and a per-generation next buffer.  The
allocator oracle `ok` says whether the k-th grid-buffer `malloc` of the
invocation succeeds.  `bfree` is defined only when the freed id is currently
live, so a `none` outcome of the model would mean a double free or a free of
an unallocated buffer.  The `Bool` of the result is the sign of the C return
value: `true` for a completed run (the death toll, which is `≥ 0`) and
`false` for the distinguished `-1` error return. -/

structure BufState where
  nextId : Nat
  live : List Nat
deriving Repr, DecidableEq

/-- One `malloc` of a grid buffer: on success the new buffer becomes live. -/
def balloc (ok : Nat → Bool) (s : BufState) : Option Nat × BufState :=
  if ok s.nextId then (some s.nextId, ⟨s.nextId + 1, s.nextId :: s.live⟩)
  else (none, ⟨s.nextId + 1, s.live⟩)

/-- One `free` of a grid buffer: defined only when the id is live. -/
def bfree (s : BufState) (id : Nat) : Option BufState :=
  if id ∈ s.live then some ⟨s.nextId, s.live.erase id⟩ else none

/-- The generation loop of `goi`, restricted to its buffer traffic;
`invFlags` lists, generation by generation, whether an invasion overlay is
copied.  Mirrors goi.c: on overlay-copy failure `free(world); return -1`; on
next-buffer failure `free(inv)` (if any), `free(world); return -1`; on
success, after the barrier, `free(inv)` (if any), `free(world)`, adopt the
next buffer; after the loop `free(world)` and return the toll. -/
def goiBuffersLoop (ok : Nat → Bool) :
    List Bool → Nat → BufState → Option (Bool × BufState)
  | [], world, s => (bfree s world).map (fun s2 => (true, s2))
  | hasInv :: rest, world, s =>
    if hasInv then
      match balloc ok s with
      | (none, s1) => (bfree s1 world).map (fun s2 => (false, s2))
      | (some inv, s1) =>
        match balloc ok s1 with
        | (none, s2) => do
          let s3 ← bfree s2 inv
          let s4 ← bfree s3 world
          some (false, s4)
        | (some next, s2) => do
          let s3 ← bfree s2 inv
          let s4 ← bfree s3 world
          goiBuffersLoop ok rest next s4
    else
      match balloc ok s with
      | (none, s1) => (bfree s1 world).map (fun s2 => (false, s2))
      | (some next, s1) => do
        let s2 ← bfree s1 world
        goiBuffersLoop ok rest next s2

/-- The buffer traffic of a whole `goi` invocation: the world copy is
allocated first; if that fails, `goi` returns `-1` with no grid buffer
acquired and none freed. -/
def goiBuffers (ok : Nat → Bool) (invFlags : List Bool) : Option (Bool × BufState) :=
  match balloc ok ⟨0, []⟩ with
  | (none, s) => some (false, s)
  | (some world, s) => goiBuffersLoop ok invFlags world s

lemma goiBuffersLoop_spec (ok : Nat → Bool) (invFlags : List Bool) :
    ∀ (world : Nat) (s : BufState), s.live = [world] → world < s.nextId →
    (∀ k, k < s.nextId → ok k = true) →
    ∃ r s2, goiBuffersLoop ok invFlags world s = some (r, s2) ∧ s2.live = [] ∧
      (r = true → ∀ k, k < s2.nextId → ok k = true) := by
  induction invFlags with
  | nil =>
    intro world s hl hn hprev
    refine ⟨true, ⟨s.nextId, []⟩, ?_, rfl, fun _ => hprev⟩
    simp [goiBuffersLoop, bfree, hl]
  | cons hasInv rest ih =>
    intro world s hl hn hprev
    have hw1 : world ≠ s.nextId := by omega
    have hw2 : world ≠ s.nextId + 1 := by omega
    have hn1 : s.nextId + 1 ≠ s.nextId := by omega
    cases hOk1 : ok s.nextId with
    | false =>
      refine ⟨false, ⟨s.nextId + 1, []⟩, ?_, rfl, by simp⟩
      cases hasInv <;>
        simp [goiBuffersLoop, balloc, bfree, hOk1, hl]
    | true =>
      cases hasInv with
      | false =>
        have hkey : goiBuffersLoop ok (false :: rest) world s =
            goiBuffersLoop ok rest s.nextId ⟨s.nextId + 1, [s.nextId]⟩ := by
          simp [goiBuffersLoop, balloc, bfree, hOk1, hl, hw1,
            List.erase_cons, Ne.symm hw1]
        rcases ih s.nextId ⟨s.nextId + 1, [s.nextId]⟩ rfl (Nat.lt_succ_self _)
            (fun k hk => by
              have hk2 : k < s.nextId + 1 := hk
              rcases Nat.lt_or_ge k s.nextId with h | h
              · exact hprev k h
              · have : k = s.nextId := by omega
                rw [this]; exact hOk1) with ⟨r, s2, heq, hlive, hok⟩
        exact ⟨r, s2, by rw [hkey]; exact heq, hlive, hok⟩
      | true =>
        cases hOk2 : ok (s.nextId + 1) with
        | false =>
          refine ⟨false, ⟨s.nextId + 2, []⟩, ?_, rfl, by simp⟩
          simp [goiBuffersLoop, balloc, bfree, hOk1, hOk2, hl, hw1,
            List.erase_cons, Ne.symm hw1]
        | true =>
          have hkey : goiBuffersLoop ok (true :: rest) world s =
              goiBuffersLoop ok rest (s.nextId + 1) ⟨s.nextId + 2, [s.nextId + 1]⟩ := by
            simp [goiBuffersLoop, balloc, bfree, hOk1, hOk2, hl, hw1, hw2, hn1,
              List.erase_cons, Ne.symm hw1, Ne.symm hw2]
          rcases ih (s.nextId + 1) ⟨s.nextId + 2, [s.nextId + 1]⟩ rfl
              (Nat.lt_succ_self _)
              (fun k hk => by
                have hk2 : k < s.nextId + 2 := hk
                rcases Nat.lt_or_ge k s.nextId with h | h
                · exact hprev k h
                · rcases Nat.lt_or_ge k (s.nextId + 1) with h2 | h2
                  · have : k = s.nextId := by omega
                    rw [this]; exact hOk1
                  · have : k = s.nextId + 1 := by omega
                    rw [this]; exact hOk2) with ⟨r, s2, heq, hlive, hok⟩
          exact ⟨r, s2, by rw [hkey]; exact heq, hlive, hok⟩

/-- Claim C8: under every allocation-failure pattern, each `free` performed
by `goi`'s buffer management targets a currently live buffer (no double
free, no free of an unallocated buffer), at exit every grid buffer acquired
during the invocation has been released (no leak), and a completed run
(`true`, the non-negative death toll) certifies that every grid-buffer
allocation attempted succeeded, so every failed allocation is reported by
the distinguished error result instead. -/
theorem C8_allocation_failure_cleanup (ok : Nat → Bool) (invFlags : List Bool) :
    ∃ r s, goiBuffers ok invFlags = some (r, s) ∧ s.live = [] ∧
      (r = true → ∀ k, k < s.nextId → ok k = true) := by
  cases hOk : ok 0 with
  | false =>
    refine ⟨false, ⟨1, []⟩, ?_, rfl, by simp⟩
    simp [goiBuffers, balloc, hOk]
  | true =>
    rcases goiBuffersLoop_spec ok invFlags 0 ⟨1, [0]⟩ rfl Nat.one_pos
        (fun k hk => by
          have hk2 : k < 1 := hk
          have : k = 0 := by omega
          rw [this]; exact hOk) with ⟨r, s2, heq, hlive, hok⟩
    refine ⟨r, s2, ?_, hlive, hok⟩
    simp only [goiBuffers, balloc, hOk, if_true]
    exact heq

end Goi
